import Mathlib

/-!
Formal model of the hierarchy-resolution and tree-rendering engine of
`sangaku_shaker`.

The Rust sources are shallowly embedded:

* `src/cache.rs` — the record store (`Record`, `SCHEMA`-backed table,
  `insert_record`, `select_record`, `select_children`, `select_sections`,
  `select_siblings`).  The SQLite table is modelled as a list of records in
  insertion order; `ORDER BY ordinal` (BINARY collation, i.e. byte-wise
  lexicographic comparison of the UTF-8 ordinal strings) is modelled by
  sorting with a structural lexicographic comparator on the character
  sequence, and the `PRIMARY KEY` constraint by the duplicate check in
  `insert_record`.
* `src/source.rs` — `slug`.
* `src/sink.rs` — `build_metadata`, `build_content`, `build_node`,
  `build_leaf`, `write_tree`, `write_node`.  Documents are modelled as
  `List Char`; file-system writes are modelled as a list of emitted
  `FileWrite` values.  The unbounded recursion of `write_node` over the
  parent/child graph (which need not be well-founded for arbitrary store
  contents) is modelled with an explicit fuel parameter.

Machine integers (`u32`) are modelled as `Nat` with explicit `% 2 ^ 32`
wrap-around where the Rust arithmetic can overflow.
-/

/-- Character list of a string literal; documents are lists of characters. -/
def chars (s : String) : List Char := s.toList

/-! ## Ordinal model (string-level helpers used by `select_siblings`) -/

/-- Helper for `splitDot`: first segment of the character list up to the
first `'.'`, together with the remaining segments.  This models
`str::split('.')`, which always yields at least one (possibly empty)
segment. -/
def splitDotP : List Char → List Char × List (List Char)
  | [] => ([], [])
  | c :: cs =>
    if c = '.' then ([], (splitDotP cs).1 :: (splitDotP cs).2)
    else (c :: (splitDotP cs).1, (splitDotP cs).2)

/-- Model of `ordinal.split('.')` (Rust `str::split` with a `char`
pattern): the list of `'.'`-free segments; always non-empty, and empty
input yields one empty segment. -/
def splitDot (l : List Char) : List (List Char) :=
  (splitDotP l).1 :: (splitDotP l).2

/-- Model of `Vec::join(".")`: interleave `'.'` between the segments. -/
def joinDot : List (List Char) → List Char
  | [] => []
  | [s] => s
  | s :: ss => s ++ '.' :: joinDot ss

/-- Model of `str::parse::<u32>()`: an optional leading `'+'`, then one or
more ASCII digits, with the value required to fit in 32 bits.  Returns
`none` exactly when Rust's parse returns `Err`. -/
def parseU32 (s : List Char) : Option Nat :=
  let ds := if s.head? = some '+' then s.tail else s
  if ds.isEmpty then none
  else if ds.all (fun c => c.isDigit) then
    let v := ds.foldl (fun a c => a * 10 + (c.toNat - 48)) 0
    if v < 2 ^ 32 then some v else none
  else none

/-- Core loop for rendering a natural number in decimal (the behaviour of
`format!("{}", n)` for `u32`): peel digits from the least significant end,
accumulating most-significant-first.  The fuel argument is an upper bound
on the number of digits; `renderNat` supplies enough. -/
def renderNatCore : Nat → Nat → List Char → List Char
  | 0, _, acc => acc
  | fuel + 1, n, acc =>
    let d := Char.ofNat (48 + n % 10)
    if n < 10 then d :: acc
    else renderNatCore fuel (n / 10) (d :: acc)

/-- Decimal rendering of a natural number, canonically (no sign, no leading
zeros, `"0"` for zero), as produced by `format!("{}", n)`. -/
def renderNat (n : Nat) : List Char := renderNatCore (n + 1) n []

/-- Value of the decimal digit string of `n` appended to the digits of an
accumulator `a`; proof-side companion of `renderNatCore`. -/
def pushNum (a n : Nat) : Nat :=
  if n < 10 then a * 10 + n
  else pushNum a (n / 10) * 10 + n % 10
termination_by n
decreasing_by exact Nat.div_lt_self (by omega) (by omega)

/-- Wrapping `u32` subtraction of one, the release-mode behaviour of
`current_index - 1` in `select_siblings`. -/
def u32sub1 (n : Nat) : Nat := (n + (2 ^ 32 - 1)) % 2 ^ 32

/-- Wrapping `u32` addition of one, the release-mode behaviour of
`current_index + 1` in `select_siblings`. -/
def u32add1 (n : Nat) : Nat := (n + 1) % 2 ^ 32

/-- The pair of sibling ordinal strings computed inside `select_siblings`
(`cache.rs` lines 193–200): split the ordinal on `'.'`, parse the last
segment as `u32` (`none` models the propagated parse error), and rebuild
`format!("{}.{}", trail[0..upbound].join("."), current_index ∓ 1)`. -/
def sibling_ordinals (ordinal : String) : Option (String × String) :=
  let trail := splitDot ordinal.toList
  match parseU32 (trail.getLastD []) with
  | none => none
  | some current_index =>
    let stem := joinDot trail.dropLast
    some ((stem ++ '.' :: renderNat (u32sub1 current_index)).asString,
          (stem ++ '.' :: renderNat (u32add1 current_index)).asString)

/-! ## Record store (`cache.rs`) -/

/-- Error taxonomy of the store layer: a malformed dotted-integer ordinal,
or an insert collision on the primary key. -/
inductive StoreError where
  | InvalidOrdinal
  | DuplicateOrdinal
deriving DecidableEq, Repr

/-- Record of a cached entry (struct `Record` in `cache.rs`). -/
structure Record where
  ordinal : String
  parent : Option String
  ancestor : Nat
  slug : String
  title : String
  difficulty : Option Nat
  content : String
deriving DecidableEq, Repr

deriving instance DecidableEq for Except

/-- The `entry` table, modelled as the list of rows in insertion order. -/
abbrev Store := List Record

/-- Byte-wise lexicographic comparison of two character sequences — the
`BINARY` collation SQLite applies to `ORDER BY ordinal` on a `text`
column (UTF-8 byte order coincides with code-point order). -/
def lexLe : List Char → List Char → Bool
  | [], _ => true
  | _ :: _, [] => false
  | a :: as, b :: bs =>
    if a.toNat < b.toNat then true
    else if a.toNat = b.toNat then lexLe as bs
    else false

/-- Row order used by the store queries: ascending ordinal string. -/
def recordLe (a b : Record) : Prop := lexLe a.ordinal.toList b.ordinal.toList = true

instance : DecidableRel recordLe := fun _ _ => instDecidableEqBool _ _

instance : IsTotal Record recordLe :=
  ⟨fun a b => by
    show lexLe a.ordinal.toList b.ordinal.toList = true ∨
      lexLe b.ordinal.toList a.ordinal.toList = true
    generalize a.ordinal.toList = x
    generalize b.ordinal.toList = y
    induction x generalizing y with
    | nil => left; simp [lexLe]
    | cons c cs ih =>
      cases y with
      | nil => right; simp [lexLe]
      | cons d ds =>
        by_cases h1 : c.toNat < d.toNat
        · left; simp [lexLe, h1]
        · by_cases h2 : c.toNat = d.toNat
          · rcases ih ds with h | h
            · left; simp [lexLe, h1, h2, h]
            · right; simp [lexLe, h2.symm, Nat.lt_irrefl, h]
          · right
            have h3 : d.toNat < c.toNat := by omega
            simp [lexLe, h3]⟩

instance : IsTrans Record recordLe :=
  ⟨fun a b c => by
    show lexLe a.ordinal.toList b.ordinal.toList = true →
      lexLe b.ordinal.toList c.ordinal.toList = true →
      lexLe a.ordinal.toList c.ordinal.toList = true
    generalize a.ordinal.toList = x
    generalize b.ordinal.toList = y
    generalize c.ordinal.toList = z
    induction x generalizing y z with
    | nil => intro _ _; simp [lexLe]
    | cons u us ih =>
      intro h1 h2
      cases y with
      | nil => simp [lexLe] at h1
      | cons v vs =>
        cases z with
        | nil => simp [lexLe] at h2
        | cons w ws =>
          by_cases huv : u.toNat < v.toNat
          · by_cases hvw : v.toNat < w.toNat
            · have : u.toNat < w.toNat := by omega
              simp [lexLe, this]
            · by_cases hvw2 : v.toNat = w.toNat
              · have : u.toNat < w.toNat := by omega
                simp [lexLe, this]
              · simp [lexLe, hvw, hvw2] at h2
          · by_cases huv2 : u.toNat = v.toNat
            · simp [lexLe, huv, huv2] at h1
              by_cases hvw : v.toNat < w.toNat
              · have : u.toNat < w.toNat := by omega
                simp [lexLe, this]
              · by_cases hvw2 : v.toNat = w.toNat
                · simp [lexLe, hvw, hvw2] at h2
                  have h3 : ¬ u.toNat < w.toNat := by omega
                  have h4 : u.toNat = w.toNat := by omega
                  simp [lexLe, h3, h4, ih vs ws h1 h2]
                · simp [lexLe, hvw, hvw2] at h2
            · simp [lexLe, huv, huv2] at h1⟩

/-- Model of `select_record` (`cache.rs` lines 109–138): point lookup by
ordinal; at most one row exists per ordinal under the primary key. -/
def select_record (s : Store) (ordinal : String) : Option Record :=
  s.find? (fun r => r.ordinal == ordinal)

/-- Model of `select_children` (`cache.rs` lines 145–160): rows whose
`parent IS ?` the given ordinal, `ORDER BY ordinal` ascending. -/
def select_children (s : Store) (ordinal : String) : List Record :=
  List.insertionSort recordLe (s.filter (fun r => r.parent == some ordinal))

/-- Model of `select_sections` (`cache.rs` lines 168–182): rows whose
`parent IS NULL`, `ORDER BY ordinal` ascending. -/
def select_sections (s : Store) : List Record :=
  List.insertionSort recordLe (s.filter (fun r => r.parent == none))

/-- Model of `select_siblings` (`cache.rs` lines 189–206): compute the two
sibling ordinals from the ordinal string and look each up in the store.
The propagated `ParseIntError` of `trail[upbound].parse()` is the
`InvalidOrdinal` of the error taxonomy. -/
def select_siblings (s : Store) (ordinal : String) :
    Except StoreError (Option Record × Option Record) :=
  match sibling_ordinals ordinal with
  | none => .error .InvalidOrdinal
  | some (prevOrdinal, nextOrdinal) =>
    .ok (select_record s prevOrdinal, select_record s nextOrdinal)

/-- Model of `insert_record` (`cache.rs` lines 208–227): a plain SQL
`INSERT`; the only constraint that can fail is the `PRIMARY KEY` on
`ordinal` (every modelled field satisfies the `NOT NULL` columns by
construction).  Returns the table after the statement together with the
error, if any; a failed insert leaves the table unchanged. -/
def insert_record (s : Store) (r : Record) : Store × Option StoreError :=
  if s.any (fun x => x.ordinal == r.ordinal) then (s, some .DuplicateOrdinal)
  else (s ++ [r], none)

/-! ## Slug derivation (`source.rs`) -/

/-- Model of `char::to_ascii_lowercase`: ASCII `A`–`Z` mapped down by 32,
everything else unchanged. -/
def rust_to_ascii_lowercase (c : Char) : Char :=
  if 'A' ≤ c ∧ c ≤ 'Z' then Char.ofNat (c.toNat + 32) else c

/-- Model of the Unicode lowercasing `str::to_lowercase`, restricted to the
ASCII range (`A`–`Z` mapped down by 32, everything else unchanged).  In the
source it runs after `to_ascii_lowercase` and before a filter that keeps
only ASCII `a`–`z`, `'-'` and `' '`, so the restriction is observable only
for exotic uppercase code points whose Unicode lowercase form is ASCII
(e.g. U+212A), which do not occur in this corpus. -/
def rust_to_lowercase (c : Char) : Char :=
  if 'A' ≤ c ∧ c ≤ 'Z' then Char.ofNat (c.toNat + 32) else c

/-- Model of `slug` (`source.rs` lines 65–76): ASCII-lowercase, then
lowercase, then keep `a`–`z` and `'-'`, map `' '` to `'-'`, and drop every
other character. -/
def slug (input : String) : String :=
  (((input.toList.map rust_to_ascii_lowercase).map rust_to_lowercase).filterMap
    (fun ch =>
      if 'a' ≤ ch ∧ ch ≤ 'z' then some ch
      else if ch = '-' then some ch
      else if ch = ' ' then some '-'
      else none)).asString

/-- The slug derivation as the specification words it: each space becomes
`'-'`, ASCII letters are lowercased and kept, and every other character is
dropped (so a literal `'-'` in the title would be dropped too).  Stated for
comparison with the implementation's `slug`. -/
def slug_claimed (input : String) : String :=
  (input.toList.filterMap
    (fun ch =>
      if 'a' ≤ ch ∧ ch ≤ 'z' then some ch
      else if 'A' ≤ ch ∧ ch ≤ 'Z' then some (Char.ofNat (ch.toNat + 32))
      else if ch = ' ' then some '-'
      else none)).asString

/-! ## Tree renderer (`sink.rs`) -/

/-- Modelled from the spec: the metadata block produced by the external
YAML serializer (`serde_yaml::to_string`, not part of this repository) for
a `Record` — `key: value` lines for `ordinal`, `parent` (if present),
`slug`, `title` and `difficulty` (if present); `ancestor` and `content`
are skipped by the serde attributes. -/
def record_metadata_yaml (r : Record) : List Char :=
  chars "---\n" ++
  chars "ordinal: " ++ r.ordinal.toList ++ chars "\n" ++
  (match r.parent with
   | some p => chars "parent: " ++ p.toList ++ chars "\n"
   | none => []) ++
  chars "slug: " ++ r.slug.toList ++ chars "\n" ++
  chars "title: " ++ r.title.toList ++ chars "\n" ++
  (match r.difficulty with
   | some d => chars "difficulty: " ++ renderNat d ++ chars "\n"
   | none => [])

/-- Model of `build_metadata` (`sink.rs` lines 10–16): the serialized
record followed by the `---` terminator line. -/
def build_metadata (r : Record) : List Char :=
  record_metadata_yaml r ++ chars "---\n"

/-- The navigation body of a leaf (`sink.rs` lines 54–64, 70): the
`Previous`/`Next` bullet list, one entry per present sibling, joined with
newlines (`nav.join("\n")`). -/
def leaf_nav (prev next : Option Record) : List Char :=
  List.intercalate (chars "\n")
    ((match prev with
      | some p => [chars "- Previous: [" ++ p.title.toList ++ chars "](" ++
          p.slug.toList ++ chars ".md)"]
      | none => []) ++
     (match next with
      | some n => [chars "- Next: [" ++ n.title.toList ++ chars "](" ++
          n.slug.toList ++ chars ".md)"]
      | none => []))

/-- The table-of-contents bullet list of a node (`sink.rs` lines 43–46):
one `- [title](./slug.md)` line per child, in order. -/
def toc_items (children : List Record) : List Char :=
  (children.map (fun child =>
    chars "- [" ++ child.title.toList ++ chars "](./" ++
      child.slug.toList ++ chars ".md)\n")).flatten

/-- Model of `build_node` (`sink.rs` lines 34–49). -/
def build_node (r : Record) (children : List Record) : List Char :=
  build_metadata r ++
  chars "# " ++ r.title.toList ++ chars "\n\n" ++
  r.content.toList ++ chars "\n\n" ++
  chars "## Table of contents\n\n" ++
  toc_items children

/-- Model of `build_leaf` (`sink.rs` lines 52–73). -/
def build_leaf (r : Record) (siblings : Option Record × Option Record) : List Char :=
  build_metadata r ++
  chars "# " ++ r.title.toList ++ chars "\n\n" ++
  r.content.toList ++ chars "\n\n" ++
  chars "## Navigation\n\n" ++
  leaf_nav siblings.1 siblings.2

/-- Model of `build_content` (`sink.rs` lines 19–31): leaf when
`select_children` is empty (querying the siblings, whose parse failure
propagates), node otherwise. -/
def build_content (s : Store) (r : Record) :
    Except StoreError (List Char × List Record) :=
  let children := select_children s r.ordinal
  if children.isEmpty then
    match select_siblings s r.ordinal with
    | .error e => .error e
    | .ok siblings => .ok (build_leaf r siblings, children)
  else .ok (build_node r children, children)

/-- One rendered file emitted by the output writer: the directory it is
written into, the file name, and the document. -/
structure FileWrite where
  dir : String
  file : String
  data : List Char
deriving DecidableEq, Repr

/-- The `for child in children { write_node(conn, &child, &path)?; }` loop
shared by `write_tree` and `write_node`: process the records left to
right with the given per-record action, stopping at the first error; the
writes already performed are kept (files already written stay on disk). -/
def write_children (go : Record → List FileWrite × Option StoreError) :
    List Record → List FileWrite × Option StoreError
  | [] => ([], none)
  | c :: cs =>
    let first := go c
    match first.2 with
    | some e => (first.1, some e)
    | none =>
      let rest := write_children go cs
      (first.1 ++ rest.1, rest.2)

/-- Model of `write_node` (`sink.rs` lines 89–100): render the record into
`<dir>/<slug>.md`, then recurse into every child with the same directory.
The fuel bounds the recursion depth (the Rust recursion is unbounded and
diverges on a cyclic parent graph); with the fuel exhausted no further
writes are modelled.  Returns the writes performed in order, and the error
that aborted the traversal, if any. -/
def write_node : Nat → Store → Record → String → List FileWrite × Option StoreError
  | 0, _, _, _ => ([], none)
  | fuel + 1, s, r, dir =>
    match build_content s r with
    | .error e => ([], some e)
    | .ok (data, children) =>
      let rest := write_children (fun c => write_node fuel s c dir) children
      (⟨dir, r.slug ++ ".md", data⟩ :: rest.1, rest.2)

/-- Model of `write_tree` (`sink.rs` lines 76–86): render the record into
`<dir>/index.md`, then `write_node` every child into the same directory. -/
def write_tree (fuel : Nat) (s : Store) (r : Record) (dir : String) :
    List FileWrite × Option StoreError :=
  match build_content s r with
  | .error e => ([], some e)
  | .ok (data, children) =>
    let rest := write_children (fun c => write_node fuel s c dir) children
    (⟨dir, "index.md", data⟩ :: rest.1, rest.2)

/-- Descendant of a record through the store's `parent` column:
`Descend s r c k` holds when `c` is reachable from `r` in exactly `k`
child steps (`k ≥ 1`). -/
inductive Descend (s : Store) : Record → Record → Nat → Prop where
  | child {r c : Record} : c ∈ select_children s r.ordinal → Descend s r c 1
  | step {r m c : Record} {k : Nat} :
      Descend s r m k → c ∈ select_children s m.ordinal → Descend s r c (k + 1)

/-! ## Lemmas about the ordinal model -/

theorem splitDotP_no_dot :
    ∀ l : List Char, '.' ∉ (splitDotP l).1 ∧ ∀ seg ∈ (splitDotP l).2, '.' ∉ seg := by
  intro l
  induction l with
  | nil => exact ⟨by simp [splitDotP], by simp [splitDotP]⟩
  | cons c cs ih =>
    obtain ⟨ih1, ih2⟩ := ih
    by_cases hc : c = '.'
    · subst hc
      simp only [splitDotP, if_pos rfl]
      refine ⟨by simp, ?_⟩
      intro seg hseg
      rcases List.mem_cons.mp hseg with h | h
      · exact h ▸ ih1
      · exact ih2 seg h
    · simp only [splitDotP, if_neg hc]
      refine ⟨?_, ih2⟩
      intro hmem
      rcases List.mem_cons.mp hmem with h | h
      · exact hc h.symm
      · exact ih1 h

theorem splitDot_no_dot (l : List Char) : ∀ seg ∈ splitDot l, '.' ∉ seg := by
  intro seg hseg
  rcases List.mem_cons.mp hseg with h | h
  · exact h ▸ (splitDotP_no_dot l).1
  · exact (splitDotP_no_dot l).2 seg h

theorem joinDot_cons_cons (a b : List Char) (t : List (List Char)) :
    joinDot (a :: b :: t) = a ++ '.' :: joinDot (b :: t) := rfl

theorem splitDot_cons_dot (cs : List Char) :
    splitDot ('.' :: cs) = [] :: splitDot cs := by
  simp [splitDot, splitDotP]

theorem splitDot_cons_ne {c : Char} (hc : c ≠ '.') (cs : List Char) :
    splitDot (c :: cs) = (c :: (splitDotP cs).1) :: (splitDotP cs).2 := by
  simp [splitDot, splitDotP, hc]

theorem joinDot_splitDot : ∀ l : List Char, joinDot (splitDot l) = l := by
  intro l
  induction l with
  | nil => rfl
  | cons c cs ih =>
    by_cases hc : c = '.'
    · subst hc
      rw [splitDot_cons_dot, show splitDot cs = (splitDotP cs).1 :: (splitDotP cs).2 from rfl,
        joinDot_cons_cons]
      simpa [splitDot] using ih
    · rw [splitDot_cons_ne hc]
      simp only [splitDot] at ih
      rcases h2 : (splitDotP cs).2 with _ | ⟨x, xs⟩
      · rw [h2] at ih
        simp only [joinDot] at ih ⊢
        rw [ih]
      · rw [h2] at ih
        rw [joinDot_cons_cons] at ih ⊢
        simp [ih]

theorem splitDotP_of_no_dot {l : List Char} (h : '.' ∉ l) : splitDotP l = (l, []) := by
  induction l with
  | nil => rfl
  | cons c cs ih =>
    have hc : c ≠ '.' := fun hc => h (hc ▸ List.mem_cons_self c cs)
    have hcs : '.' ∉ cs := fun hm => h (List.mem_cons_of_mem _ hm)
    simp [splitDotP, hc, ih hcs]

theorem splitDot_of_no_dot {l : List Char} (h : '.' ∉ l) : splitDot l = [l] := by
  simp [splitDot, splitDotP_of_no_dot h]

theorem splitDotP_append_dot {x : List Char} (hx : '.' ∉ x) (t : List Char) :
    splitDotP (x ++ '.' :: t) = (x, (splitDotP t).1 :: (splitDotP t).2) := by
  induction x with
  | nil => simp [splitDotP]
  | cons c cs ih =>
    have hc : c ≠ '.' := fun hc => hx (hc ▸ List.mem_cons_self c cs)
    have hcs : '.' ∉ cs := fun hm => hx (List.mem_cons_of_mem _ hm)
    simp [splitDotP, hc, ih hcs]

theorem splitDot_append_dot {x : List Char} (hx : '.' ∉ x) (t : List Char) :
    splitDot (x ++ '.' :: t) = x :: splitDot t := by
  simp [splitDot, splitDotP_append_dot hx]

theorem joinDot_concat {p : List (List Char)} (hp : p ≠ []) (x : List Char) :
    joinDot (p ++ [x]) = joinDot p ++ '.' :: x := by
  induction p with
  | nil => exact absurd rfl hp
  | cons a t ih =>
    rcases t with _ | ⟨b, t'⟩
    · simp [joinDot]
    · have ihh := ih (by simp)
      simp only [List.cons_append] at ihh ⊢
      rw [joinDot_cons_cons, joinDot_cons_cons, ihh]
      simp

theorem splitDot_joinDot :
    ∀ p : List (List Char), p ≠ [] → (∀ seg ∈ p, '.' ∉ seg) →
      splitDot (joinDot p) = p := by
  intro p
  induction p with
  | nil => intro h; exact absurd rfl h
  | cons a t ih =>
    intro _ hsegs
    rcases t with _ | ⟨b, t'⟩
    · exact splitDot_of_no_dot (hsegs a (by simp))
    · rw [joinDot_cons_cons, splitDot_append_dot (hsegs a (by simp)),
        ih (by simp) (fun seg hseg => hsegs seg (List.mem_cons_of_mem _ hseg))]

/-! ## Lemmas about decimal rendering and parsing -/

theorem toNat_ofNat_digit {d : Nat} (h : d < 10) :
    (Char.ofNat (48 + d)).toNat = 48 + d := by
  interval_cases d <;> decide

theorem isDigit_ofNat_digit {d : Nat} (h : d < 10) :
    (Char.ofNat (48 + d)).isDigit = true := by
  interval_cases d <;> decide

theorem renderNatCore_digits :
    ∀ fuel n acc, (∀ c ∈ acc, c.isDigit = true) →
      ∀ c ∈ renderNatCore fuel n acc, c.isDigit = true := by
  intro fuel
  induction fuel with
  | zero => intro n acc hacc; exact hacc
  | succ fuel ih =>
    intro n acc hacc c hc
    by_cases h : n < 10
    · simp only [renderNatCore, if_pos h] at hc
      rcases List.mem_cons.mp hc with h' | h'
      · exact h' ▸ isDigit_ofNat_digit (Nat.mod_lt _ (by omega))
      · exact hacc c h'
    · simp only [renderNatCore, if_neg h] at hc
      refine ih (n / 10) _ ?_ c hc
      intro c' hc'
      rcases List.mem_cons.mp hc' with h' | h'
      · exact h' ▸ isDigit_ofNat_digit (Nat.mod_lt _ (by omega))
      · exact hacc c' h'

theorem renderNatCore_append :
    ∀ fuel n acc, ∃ ds, renderNatCore fuel n acc = ds ++ acc ∧ (0 < fuel → ds ≠ []) := by
  intro fuel
  induction fuel with
  | zero => intro n acc; exact ⟨[], rfl, by omega⟩
  | succ fuel ih =>
    intro n acc
    by_cases h : n < 10
    · exact ⟨[Char.ofNat (48 + n % 10)], by simp [renderNatCore, if_pos h], by simp⟩
    · obtain ⟨ds, heq, _⟩ := ih (n / 10) (Char.ofNat (48 + n % 10) :: acc)
      refine ⟨ds ++ [Char.ofNat (48 + n % 10)], ?_, by simp⟩
      simp only [renderNatCore, if_neg h, heq, List.append_assoc, List.singleton_append]

theorem renderNatCore_foldl :
    ∀ fuel n acc a, n < fuel →
      (renderNatCore fuel n acc).foldl (fun x c => x * 10 + (c.toNat - 48)) a =
      acc.foldl (fun x c => x * 10 + (c.toNat - 48)) (pushNum a n) := by
  intro fuel
  induction fuel with
  | zero => intro n acc a h; omega
  | succ fuel ih =>
    intro n acc a h
    by_cases hn : n < 10
    · simp only [renderNatCore, if_pos hn, List.foldl_cons]
      rw [pushNum, if_pos hn, toNat_ofNat_digit (Nat.mod_lt _ (by omega))]
      congr 1
      omega
    · have hdiv : n / 10 < n := Nat.div_lt_self (by omega) (by omega)
      have hfuel : n / 10 < fuel := by omega
      have hpush : pushNum a n = pushNum a (n / 10) * 10 + n % 10 := by
        rw [pushNum, if_neg hn]
      simp only [renderNatCore, if_neg hn]
      rw [ih (n / 10) _ a hfuel, List.foldl_cons,
        toNat_ofNat_digit (Nat.mod_lt _ (by omega)), hpush]
      congr 1
      omega

theorem pushNum_zero (n : Nat) : pushNum 0 n = n := by
  induction n using Nat.strong_induction_on with
  | _ n ih =>
    by_cases h : n < 10
    · rw [pushNum, if_pos h]
      omega
    · rw [pushNum, if_neg h, ih (n / 10) (Nat.div_lt_self (by omega) (by omega))]
      omega

theorem renderNat_digits (n : Nat) : ∀ c ∈ renderNat n, c.isDigit = true :=
  renderNatCore_digits (n + 1) n [] (by simp)

theorem renderNat_ne_nil (n : Nat) : renderNat n ≠ [] := by
  obtain ⟨ds, heq, hne⟩ := renderNatCore_append (n + 1) n []
  unfold renderNat
  rw [heq, List.append_nil]
  exact hne (by omega)

theorem renderNat_no_dot (n : Nat) : '.' ∉ renderNat n := by
  intro h
  have := renderNat_digits n _ h
  simp [Char.isDigit] at this

theorem renderNat_foldl (n : Nat) :
    (renderNat n).foldl (fun x c => x * 10 + (c.toNat - 48)) 0 = n := by
  unfold renderNat
  rw [renderNatCore_foldl (n + 1) n [] 0 (by omega), List.foldl_nil, pushNum_zero]

theorem parseU32_digits {l : List Char} (hne : l ≠ [])
    (hd : ∀ c ∈ l, c.isDigit = true)
    (hv : l.foldl (fun a c => a * 10 + (c.toNat - 48)) 0 < 2 ^ 32) :
    parseU32 l = some (l.foldl (fun a c => a * 10 + (c.toNat - 48)) 0) := by
  rcases l with _ | ⟨c, t⟩
  · exact absurd rfl hne
  · have hc : c.isDigit = true := hd c (by simp)
    have hcp : c ≠ '+' := by
      intro h
      rw [h] at hc
      simp [Char.isDigit] at hc
    unfold parseU32
    have hhead : ¬ (c :: t).head? = some '+' := by
      simp only [List.head?_cons, Option.some.injEq]
      exact hcp
    rw [if_neg hhead]
    simp only [List.isEmpty_cons, Bool.false_eq_true, if_false]
    rw [if_pos (List.all_eq_true.mpr hd), if_pos hv]

theorem parseU32_renderNat {n : Nat} (h : n < 2 ^ 32) :
    parseU32 (renderNat n) = some n := by
  rw [parseU32_digits (renderNat_ne_nil n) (renderNat_digits n)
    (by rw [renderNat_foldl]; exact h), renderNat_foldl]

theorem u32add1_lt (n : Nat) : u32add1 n < 2 ^ 32 :=
  Nat.mod_lt _ (by norm_num)

theorem u32sub1_lt (n : Nat) : u32sub1 n < 2 ^ 32 :=
  Nat.mod_lt _ (by norm_num)

theorem u32sub1_u32add1 {n : Nat} (h : n < 2 ^ 32) : u32sub1 (u32add1 n) = n := by
  unfold u32sub1 u32add1
  omega

theorem u32sub1_zero : u32sub1 0 = 2 ^ 32 - 1 := by
  unfold u32sub1
  norm_num

/-! ## Lemmas about `sibling_ordinals` and the store queries -/

theorem toList_asString (l : List Char) : l.asString.toList = l := rfl

theorem sibling_ordinals_of_trail {o : String} {p : List (List Char)}
    {seg : List Char} {n : Nat}
    (h1 : splitDot o.toList = p ++ [seg]) (h2 : parseU32 seg = some n) :
    sibling_ordinals o = some
      ((joinDot p ++ '.' :: renderNat (u32sub1 n)).asString,
       (joinDot p ++ '.' :: renderNat (u32add1 n)).asString) := by
  unfold sibling_ordinals
  rw [h1]
  simp only [List.getLastD_concat, List.dropLast_concat, h2]

theorem sibling_ordinals_none {o : String}
    (h : parseU32 ((splitDot o.toList).getLastD []) = none) :
    sibling_ordinals o = none := by
  simp only [sibling_ordinals, h]

theorem select_siblings_of_some {s : Store} {o : String} {pk nk : String}
    (h : sibling_ordinals o = some (pk, nk)) :
    select_siblings s o = .ok (select_record s pk, select_record s nk) := by
  unfold select_siblings
  rw [h]

theorem select_siblings_of_none {s : Store} {o : String}
    (h : sibling_ordinals o = none) :
    select_siblings s o = .error .InvalidOrdinal := by
  unfold select_siblings
  rw [h]

theorem select_record_eq_none {s : Store} {k : String}
    (h : ∀ r ∈ s, r.ordinal ≠ k) : select_record s k = none := by
  unfold select_record
  rw [List.find?_eq_none]
  intro x hx
  simpa using h x hx

/-! ## Claim C1 -/

/-- C1 (amended): for a single-segment ordinal (no dot), `select_siblings`
parses the segment and, because the joined prefix of the trail is empty,
looks up the keys `"." ++ (n-1)` and `"." ++ (n+1)` — for ordinal `"3"`
the keys `".2"` and `".4"`, not `"2"` and `"4"`; it fails with
`InvalidOrdinal` exactly when the segment does not parse. -/
theorem c1_single_segment_keys (s : Store) (o : String) (hs : '.' ∉ o.toList) :
    (∀ n, parseU32 o.toList = some n →
      select_siblings s o = .ok
        (select_record s ('.' :: renderNat (u32sub1 n)).asString,
         select_record s ('.' :: renderNat (u32add1 n)).asString)) ∧
    (parseU32 o.toList = none → select_siblings s o = .error .InvalidOrdinal) := by
  have htr : splitDot o.toList = [] ++ [o.toList] := by
    simpa using splitDot_of_no_dot hs
  constructor
  · intro n hn
    have hkeys := sibling_ordinals_of_trail htr hn
    simp only [joinDot, List.nil_append] at hkeys
    exact select_siblings_of_some hkeys
  · intro hn
    refine select_siblings_of_none (sibling_ordinals_none ?_)
    rw [htr]
    simpa using hn

/-- C1 (witness): concrete run of the amended statement at ordinal `"3"`
over the empty store. -/
theorem c1_witness :
    select_siblings ([] : Store) "3" = .ok
      (select_record [] ('.' :: renderNat (u32sub1 3)).asString,
       select_record [] ('.' :: renderNat (u32add1 3)).asString) :=
  (c1_single_segment_keys [] "3" (by decide)).1 3 (by decide)

/-- C1 (counterexample): with records `"2"` and `"4"` in the store,
`siblings_of("3")` finds neither — it looks up `".2"` and `".4"`, so the
claim's "looking up records `"2"` and `"4"` for ordinal `"3"`" is false. -/
theorem c1_counterexample :
    select_siblings
      [⟨"2", none, 2, "two", "Two", none, "x"⟩,
       ⟨"4", none, 4, "four", "Four", none, "y"⟩] "3" = .ok (none, none) ∧
    select_record
      [⟨"2", none, 2, "two", "Two", none, "x"⟩,
       ⟨"4", none, 4, "four", "Four", none, "y"⟩] "2" =
      some ⟨"2", none, 2, "two", "Two", none, "x"⟩ ∧
    select_record
      [⟨"2", none, 2, "two", "Two", none, "x"⟩,
       ⟨"4", none, 4, "four", "Four", none, "y"⟩] "4" =
      some ⟨"4", none, 4, "four", "Four", none, "y"⟩ ∧
    sibling_ordinals "3" = some (".2", ".4") := by decide

/-! ## Claim C2 -/

/-- C2 (amended): for an ordinal whose last segment is `"0"`, the previous
sibling computation is the wrapping `u32` subtraction `0 - 1`, yielding
the well-formed ordinal with last segment `4294967295` (`2 ^ 32 - 1`), not
`-1`; when no record with that ordinal exists the lookup returns `none`
(no previous sibling), and no error is reported (in a debug build the Rust
subtraction would panic on overflow instead). -/
theorem c2_zero_segment_wraps (s : Store) (o : String) (p : List (List Char))
    (h1 : splitDot o.toList = p ++ [['0']])
    (h2 : ∀ r ∈ s, r.ordinal ≠ (joinDot p ++ '.' :: renderNat (2 ^ 32 - 1)).asString) :
    sibling_ordinals o = some
      ((joinDot p ++ '.' :: renderNat (2 ^ 32 - 1)).asString,
       (joinDot p ++ '.' :: renderNat 1).asString) ∧
    select_siblings s o = .ok
      (none, select_record s ((joinDot p ++ '.' :: renderNat 1).asString)) := by
  have hparse : parseU32 ['0'] = some 0 := by decide
  have hkeys := sibling_ordinals_of_trail h1 hparse
  rw [u32sub1_zero, show u32add1 0 = 1 by decide] at hkeys
  refine ⟨hkeys, ?_⟩
  rw [select_siblings_of_some hkeys, select_record_eq_none h2]

/-- C2 (witness): concrete run of the amended statement at ordinal `"1.0"`
over the empty store. -/
theorem c2_witness :
    sibling_ordinals "1.0" = some
      ((joinDot [['1']] ++ '.' :: renderNat (2 ^ 32 - 1)).asString,
       (joinDot [['1']] ++ '.' :: renderNat 1).asString) ∧
    select_siblings ([] : Store) "1.0" = .ok
      (none, select_record [] ((joinDot [['1']] ++ '.' :: renderNat 1).asString)) :=
  c2_zero_segment_wraps [] "1.0" [['1']] (by decide) (by simp)

/-- C2 (counterexample): `sibling_of("1.0", -1)` computes `"1.4294967295"`
(the `u32` wrap-around of `0 - 1`), not the claimed `"1.-1"`. -/
theorem c2_counterexample :
    sibling_ordinals "1.0" = some ("1.4294967295", "1.1") ∧
    ("1.4294967295" : String) ≠ "1.-1" := by decide

/-! ## Claim C5 -/

/-- C5 (amended): for an ordinal of two or more segments whose last segment
is the canonical decimal rendering of a `u32` value, applying the
next-sibling computation and then the previous-sibling computation to the
result returns the original ordinal exactly, independent of the store.
(For a non-canonical last segment such as `"07"` or `"+7"`, which also
parses, the round trip canonicalises it instead — see the
counterexample.) -/
theorem c5_next_prev_roundtrip (o : String) (p : List (List Char)) (n : Nat)
    (h1 : splitDot o.toList = p ++ [renderNat n])
    (hp : p ≠ []) (hn : n < 2 ^ 32) :
    ∃ prevK nextK prevK2 nextK2,
      sibling_ordinals o = some (prevK, nextK) ∧
      sibling_ordinals nextK = some (prevK2, nextK2) ∧
      prevK2 = o := by
  have key1 := sibling_ordinals_of_trail h1 (parseU32_renderNat hn)
  have hsegs : ∀ seg ∈ p ++ [renderNat (u32add1 n)], '.' ∉ seg := by
    intro seg hseg
    rcases List.mem_append.mp hseg with h | h
    · exact splitDot_no_dot o.toList seg (h1 ▸ List.mem_append.mpr (Or.inl h))
    · rw [List.mem_singleton.mp h]
      exact renderNat_no_dot _
  have hnk : splitDot ((joinDot p ++ '.' :: renderNat (u32add1 n)).asString).toList =
      p ++ [renderNat (u32add1 n)] := by
    rw [toList_asString, ← joinDot_concat hp]
    exact splitDot_joinDot _ (by simp) hsegs
  have key2 := sibling_ordinals_of_trail hnk (parseU32_renderNat (u32add1_lt n))
  rw [u32sub1_u32add1 hn] at key2
  refine ⟨_, _, _, _, key1, key2, ?_⟩
  have : joinDot p ++ '.' :: renderNat n = o.toList := by
    rw [← joinDot_concat hp, ← h1, joinDot_splitDot]
  rw [this]
  exact String.asString_toList o

/-- C5 (witness): concrete run of the amended statement at ordinal
`"2.3"`. -/
theorem c5_witness :
    ∃ prevK nextK prevK2 nextK2,
      sibling_ordinals "2.3" = some (prevK, nextK) ∧
      sibling_ordinals nextK = some (prevK2, nextK2) ∧
      prevK2 = "2.3" :=
  c5_next_prev_roundtrip "2.3" [['2']] 3 (by decide) (by decide) (by decide)

/-- C5 (counterexample): the last segment `"07"` parses as the non-negative
integer `7`, but next-then-previous yields `"1.7"`, not the original
`"1.07"` — the round trip re-renders the segment canonically. -/
theorem c5_counterexample :
    sibling_ordinals "1.07" = some ("1.6", "1.8") ∧
    sibling_ordinals "1.8" = some ("1.7", "1.9") ∧
    ("1.7" : String) ≠ "1.07" := by decide

/-! ## Claim C3 -/

/-- C3 (confirmed): inserting a record whose ordinal already exists in the
store fails with `DuplicateOrdinal` (the primary-key violation, not an
upsert) and leaves the store — its record count and every stored record —
unchanged. -/
theorem c3_duplicate_insert (s : Store) (r dup : Record) (hmem : dup ∈ s)
    (heq : dup.ordinal = r.ordinal) :
    insert_record s r = (s, some .DuplicateOrdinal) ∧
    (insert_record s r).1.length = s.length ∧
    (∀ x : Record, x ∈ (insert_record s r).1 ↔ x ∈ s) := by
  have hany : s.any (fun x => x.ordinal == r.ordinal) = true :=
    List.any_eq_true.mpr ⟨dup, hmem, by simp [heq]⟩
  unfold insert_record
  rw [if_pos hany]
  exact ⟨rfl, rfl, fun x => Iff.rfl⟩

/-- C3 (witness): inserting a second record with ordinal `"1"` into a store
already holding ordinal `"1"` fails and changes nothing. -/
theorem c3_witness :
    insert_record [⟨"1", none, 1, "a", "A", none, "c"⟩]
        ⟨"1", some "0", 9, "b", "B", none, "d"⟩ =
      ([⟨"1", none, 1, "a", "A", none, "c"⟩], some .DuplicateOrdinal) ∧
    (insert_record [⟨"1", none, 1, "a", "A", none, "c"⟩]
        ⟨"1", some "0", 9, "b", "B", none, "d"⟩).1.length =
      ([⟨"1", none, 1, "a", "A", none, "c"⟩] : Store).length ∧
    (∀ x : Record,
      x ∈ (insert_record [⟨"1", none, 1, "a", "A", none, "c"⟩]
        ⟨"1", some "0", 9, "b", "B", none, "d"⟩).1 ↔
      x ∈ [⟨"1", none, 1, "a", "A", none, "c"⟩]) :=
  c3_duplicate_insert [⟨"1", none, 1, "a", "A", none, "c"⟩]
    ⟨"1", some "0", 9, "b", "B", none, "d"⟩
    ⟨"1", none, 1, "a", "A", none, "c"⟩ (by simp) (by simp)

/-! ## Claim C10 -/

/-- C10 (confirmed): `insert_record` performs no syntactic validation of
the ordinal (or parent): any record whose ordinal is not already present
is appended successfully, even if the ordinal is not a dotted sequence of
non-negative integers; the malformedness surfaces only later, when a
sibling query parses the stored ordinal and fails with `InvalidOrdinal`. -/
theorem c10_insert_no_validation (s : Store) (r : Record)
    (hfresh : ∀ x ∈ s, x.ordinal ≠ r.ordinal) :
    insert_record s r = (s ++ [r], none) ∧
    (parseU32 ((splitDot r.ordinal.toList).getLastD []) = none →
      select_siblings (insert_record s r).1 r.ordinal = .error .InvalidOrdinal) := by
  have hany : s.any (fun x => x.ordinal == r.ordinal) = false := by
    rw [List.any_eq_false]
    intro x hx
    simpa using hfresh x hx
  unfold insert_record
  rw [hany]
  exact ⟨rfl, fun hparse =>
    select_siblings_of_none (sibling_ordinals_none hparse)⟩

/-- C10 (witness): the malformed ordinal `"a.b"` (and the empty ordinal
`""`) insert fine into a store not containing them, and the subsequent
sibling query on `"a.b"` fails with `InvalidOrdinal`. -/
theorem c10_witness :
    (insert_record [] ⟨"a.b", none, 0, "s", "T", none, "c"⟩ =
      ([⟨"a.b", none, 0, "s", "T", none, "c"⟩], none)) ∧
    select_siblings
      (insert_record [] ⟨"a.b", none, 0, "s", "T", none, "c"⟩).1 "a.b" =
      .error .InvalidOrdinal ∧
    insert_record [] ⟨"", none, 0, "e", "E", none, ""⟩ =
      ([⟨"", none, 0, "e", "E", none, ""⟩], none) :=
  ⟨(c10_insert_no_validation []
      (⟨"a.b", none, 0, "s", "T", none, "c"⟩ : Record) (by simp)).1,
   (c10_insert_no_validation []
      (⟨"a.b", none, 0, "s", "T", none, "c"⟩ : Record) (by simp)).2 (by decide),
   (c10_insert_no_validation []
      (⟨"", none, 0, "e", "E", none, ""⟩ : Record) (by simp)).1⟩

/-! ## Claim C6 -/

/-- C6 (amended): `children_of(x)` returns exactly the records whose
`parent` equals `x` and `sections()` exactly the records with no parent,
each in ascending **ordinal-string** order (byte-wise lexicographic, the
SQLite `BINARY` collation on the `ordinal` column).  This coincides with
numeric-per-segment order only while sibling segments have equal width
(e.g. all single-digit); `"10"` sorts before `"2"` — see the
counterexample. -/
theorem c6_children_sections_order (s : Store) (x : String) :
    List.Perm (select_children s x) (s.filter (fun r => r.parent == some x)) ∧
    List.Sorted recordLe (select_children s x) ∧
    List.Perm (select_sections s) (s.filter (fun r => r.parent == none)) ∧
    List.Sorted recordLe (select_sections s) ∧
    (∀ r : Record, r ∈ select_children s x ↔ r ∈ s ∧ r.parent = some x) ∧
    (∀ r : Record, r ∈ select_sections s ↔ r ∈ s ∧ r.parent = none) := by
  refine ⟨List.perm_insertionSort _ _, List.sorted_insertionSort _ _,
    List.perm_insertionSort _ _, List.sorted_insertionSort _ _, ?_, ?_⟩
  · intro r
    rw [select_children, (List.perm_insertionSort _ _).mem_iff, List.mem_filter]
    simp
  · intro r
    rw [select_sections, (List.perm_insertionSort _ _).mem_iff, List.mem_filter]
    simp

/-- C6 (counterexample): two sections with ordinals `"10"` and `"2"` come
back in the order `["10", "2"]` — the string order — although their
numeric values satisfy `2 < 10`, so the order is not "effectively numeric
per segment". -/
theorem c6_counterexample :
    (select_sections
      [⟨"10", none, 10, "t", "T", none, "c"⟩,
       ⟨"2", none, 2, "u", "U", none, "d"⟩]).map Record.ordinal = ["10", "2"] ∧
    parseU32 ("10".toList) = some 10 ∧
    parseU32 ("2".toList) = some 2 ∧
    ¬ (10 : Nat) ≤ 2 := by decide

/-! ## Claim C9 -/

/-- C9 (amended): the derived slug contains only lowercase ASCII letters
and `'-'`: each space becomes `'-'`, ASCII letters are lowercased and
kept, a literal `'-'` is kept as well, and every other character
(including non-ASCII letters such as `'ó'`) is dropped, not
transliterated; in particular `slug "Equació de Segon Grau" =
"equaci-de-segon-grau"` and `slug "x-y" = "x-y"`. -/
theorem c9_slug_lossy (input : String) :
    (∀ c ∈ (slug input).toList, ('a' ≤ c ∧ c ≤ 'z') ∨ c = '-') ∧
    slug "Equació de Segon Grau" = "equaci-de-segon-grau" ∧
    slug "x-y" = "x-y" := by
  refine ⟨?_, by decide, by decide⟩
  intro c hc
  have hmem : c ∈ ((input.toList.map rust_to_ascii_lowercase).map
      rust_to_lowercase).filterMap
    (fun ch =>
      if 'a' ≤ ch ∧ ch ≤ 'z' then some ch
      else if ch = '-' then some ch
      else if ch = ' ' then some '-'
      else none) := hc
  obtain ⟨a, _, hfa⟩ := List.mem_filterMap.mp hmem
  by_cases h1 : 'a' ≤ a ∧ a ≤ 'z'
  · rw [if_pos h1, Option.some.injEq] at hfa
    exact Or.inl (hfa ▸ h1)
  · rw [if_neg h1] at hfa
    by_cases h2 : a = '-'
    · rw [if_pos h2, Option.some.injEq] at hfa
      exact Or.inr (hfa ▸ h2)
    · rw [if_neg h2] at hfa
      by_cases h3 : a = ' '
      · rw [if_pos h3, Option.some.injEq] at hfa
        exact Or.inr hfa.symm
      · rw [if_neg h3] at hfa
        exact absurd hfa (by simp)

/-- C9 (witness): the two concrete slugs of the amended statement, and the
character property at `'e' ∈ slug "Equació de Segon Grau"`. -/
theorem c9_witness :
    (('a' ≤ 'e' ∧ 'e' ≤ 'z') ∨ 'e' = '-') ∧
    slug "Equació de Segon Grau" = "equaci-de-segon-grau" ∧
    slug "x-y" = "x-y" :=
  ⟨(c9_slug_lossy "Equació de Segon Grau").1 'e' (by decide),
   (c9_slug_lossy "").2.1, (c9_slug_lossy "").2.2⟩

/-- C9 (counterexample): the claim says every character other than a space
or an ASCII letter is dropped, but the implementation keeps `'-'`:
`slug "a-b" = "a-b"`, whereas the claimed rule (`slug_claimed`) would
produce `"ab"`. -/
theorem c9_counterexample :
    slug "a-b" = "a-b" ∧ slug_claimed "a-b" = "ab" ∧
    slug "a-b" ≠ slug_claimed "a-b" := by decide

/-! ## Occurrence lemmas for the rendered documents -/

theorem occ_append_split {p a b : List Char} (h : p <:+: a ++ b) :
    p <:+: a ∨ p <:+: b ∨
      ∃ s t, p = s ++ t ∧ s ≠ [] ∧ t ≠ [] ∧ s <:+ a ∧ t <+: b := by
  induction a generalizing p with
  | nil =>
    right; left
    simpa using h
  | cons x a2 ih =>
    rw [List.cons_append] at h
    rcases List.infix_cons_iff.mp h with hpre | hinf
    · rcases p with _ | ⟨c, p2⟩
      · exact Or.inl List.nil_infix
      · obtain ⟨rfl, hp2⟩ := List.cons_prefix_cons.mp hpre
        obtain ⟨r, hr⟩ := hp2
        rcases List.append_eq_append_iff.mp hr with ⟨a', ha1, _⟩ | ⟨c', hc1, hc2⟩
        · left
          exact (List.cons_prefix_cons.mpr ⟨rfl, ⟨a', ha1.symm⟩⟩).isInfix
        · rcases c' with _ | ⟨d, c2⟩
          · left
            rw [List.append_nil] at hc1
            subst hc1
            exact List.infix_refl _
          · right; right
            refine ⟨c :: a2, d :: c2, by simp [hc1], by simp, by simp,
              List.suffix_refl _, ⟨r, hc2.symm⟩⟩
    · rcases ih hinf with h1 | h1 | ⟨s, t, hst, hs, ht, hsa, htb⟩
      · exact Or.inl (List.infix_cons h1)
      · exact Or.inr (Or.inl h1)
      · exact Or.inr (Or.inr ⟨s, t, hst, hs, ht,
          hsa.trans (List.suffix_cons x a2), htb⟩)

theorem occ_append_right {p a b : List Char} {c : Char} (hc : c ∉ p)
    (h : p <:+: a ++ c :: b) : p <:+: a ∨ p <:+: c :: b := by
  rcases occ_append_split h with h1 | h1 | ⟨s, t, hst, _, ht, _, htb⟩
  · exact Or.inl h1
  · exact Or.inr h1
  · exfalso
    rcases t with _ | ⟨d, t2⟩
    · exact ht rfl
    · obtain ⟨rfl, -⟩ := List.cons_prefix_cons.mp htb
      exact hc (hst ▸ List.mem_append.mpr (Or.inr (List.mem_cons_self _ _)))

theorem occ_append_left {p a b : List Char} {c : Char} (hc : c ∉ p)
    (h : p <:+: (a ++ [c]) ++ b) : p <:+: a ++ [c] ∨ p <:+: b := by
  rcases occ_append_split h with h1 | h1 | ⟨s, t, hst, hs, _, hsa, _⟩
  · exact Or.inl h1
  · exact Or.inr h1
  · exfalso
    obtain ⟨u, hu⟩ := hsa
    have hcs : c ∈ s := by
      rcases List.append_eq_append_iff.mp hu with ⟨a', _, ha2⟩ | ⟨c', _, hc2⟩
      · rw [ha2]
        simp
      · rcases c' with _ | ⟨d, c2⟩
        · rw [List.nil_append] at hc2
          rw [← hc2]
          simp
        · rcases c2 with _ | _
          · simp_all
          · simp at hc2
    exact hc (hst ▸ List.mem_append.mpr (Or.inl hcs))

theorem occ_cons_of_ne {p l : List Char} {c : Char} (hc : c ∉ p) (hp : p ≠ [])
    (h : p <:+: c :: l) : p <:+: l := by
  rcases List.infix_cons_iff.mp h with hpre | hinf
  · rcases p with _ | ⟨d, p2⟩
    · exact absurd rfl hp
    · obtain ⟨rfl, -⟩ := List.cons_prefix_cons.mp hpre
      exact absurd (List.mem_cons_self _ _) hc
  · exact hinf

theorem occ_append_append_right {p a m b : List Char} {c : Char} (hc : c ∉ p)
    (h : p <:+: a ++ (m ++ c :: b)) : p <:+: a ++ m ∨ p <:+: c :: b := by
  rw [← List.append_assoc] at h
  exact occ_append_right hc h

theorem build_metadata_shape (r : Record) :
    build_metadata r = (record_metadata_yaml r ++ chars "---") ++ ['\n'] := by
  rw [build_metadata, List.append_assoc]
  rfl

/-- A pattern with no newline that occurs in no constituent of a rendered
document — not in the metadata block, the `"# "`-prefixed title line, the
content body, the trailing section (header chunk `H`, which ends in a
newline) or the section body `X` — does not occur in the assembled
document. -/
theorem doc_no_occ (p : List Char) (r : Record) (H X : List Char)
    (hp : p ≠ []) (hnl : '\n' ∉ p) (hH : ∃ G, H = G ++ ['\n'])
    (h1 : ¬ p <:+: build_metadata r)
    (h2 : ¬ p <:+: chars "# " ++ r.title.toList)
    (h3 : ¬ p <:+: r.content.toList)
    (h4 : ¬ p <:+: H)
    (h5 : ¬ p <:+: X) :
    ¬ p <:+: build_metadata r ++ chars "# " ++ r.title.toList ++ chars "\n\n" ++
      r.content.toList ++ chars "\n\n" ++ H ++ X := by
  intro hocc
  obtain ⟨G, hG⟩ := hH
  rw [build_metadata_shape, hG] at hocc
  simp only [List.append_assoc, List.singleton_append] at hocc
  rcases occ_append_append_right hnl hocc with h | h
  · refine h1 ?_
    rw [build_metadata_shape]
    exact h.trans (List.prefix_append _ _).isInfix
  replace h := occ_cons_of_ne hnl hp h
  rcases occ_append_append_right hnl h with h | h
  · exact h2 h
  replace h := occ_cons_of_ne hnl hp (occ_cons_of_ne hnl hp h)
  rcases occ_append_right hnl h with h | h
  · exact h3 h
  replace h := occ_cons_of_ne hnl hp (occ_cons_of_ne hnl hp h)
  rcases occ_append_right hnl h with h | h
  · refine h4 ?_
    rw [hG]
    exact h.trans (List.prefix_append _ _).isInfix
  · exact h5 (occ_cons_of_ne hnl hp h)

theorem no_toc_in_leaf (r : Record) (prev next : Option Record)
    (h1 : ¬ chars "## Table of contents" <:+: build_metadata r)
    (h2 : ¬ chars "## Table of contents" <:+: chars "# " ++ r.title.toList)
    (h3 : ¬ chars "## Table of contents" <:+: r.content.toList)
    (h4 : ¬ chars "## Table of contents" <:+: leaf_nav prev next) :
    ¬ chars "## Table of contents" <:+: build_leaf r (prev, next) := by
  rw [build_leaf]
  exact doc_no_occ _ r (chars "## Navigation\n\n") (leaf_nav prev next)
    (by decide) (by decide) ⟨chars "## Navigation\n", by decide⟩
    h1 h2 h3 (by decide) h4

theorem no_nav_in_node (r : Record) (children : List Record)
    (h1 : ¬ chars "## Navigation" <:+: build_metadata r)
    (h2 : ¬ chars "## Navigation" <:+: chars "# " ++ r.title.toList)
    (h3 : ¬ chars "## Navigation" <:+: r.content.toList)
    (h4 : ¬ chars "## Navigation" <:+: toc_items children) :
    ¬ chars "## Navigation" <:+: build_node r children := by
  rw [build_node]
  exact doc_no_occ _ r (chars "## Table of contents\n\n") (toc_items children)
    (by decide) (by decide) ⟨chars "## Table of contents\n", by decide⟩
    h1 h2 h3 (by decide) h4

theorem nav_in_leaf (r : Record) (prev next : Option Record) :
    chars "## Navigation" <:+: build_leaf r (prev, next) := by
  refine ⟨build_metadata r ++ chars "# " ++ r.title.toList ++ chars "\n\n" ++
    r.content.toList ++ chars "\n\n", chars "\n\n" ++ leaf_nav prev next, ?_⟩
  rw [build_leaf]
  simp only [List.append_assoc]
  rfl

theorem toc_in_node (r : Record) (children : List Record) :
    chars "## Table of contents" <:+: build_node r children := by
  refine ⟨build_metadata r ++ chars "# " ++ r.title.toList ++ chars "\n\n" ++
    r.content.toList ++ chars "\n\n", chars "\n\n" ++ toc_items children, ?_⟩
  rw [build_node]
  simp only [List.append_assoc]
  rfl

theorem build_content_leaf {s : Store} {r : Record} {prev next : Option Record}
    (hch : select_children s r.ordinal = [])
    (hsib : select_siblings s r.ordinal = .ok (prev, next)) :
    build_content s r = .ok (build_leaf r (prev, next), []) := by
  unfold build_content
  rw [hch]
  simp [hsib]

theorem build_content_node {s : Store} {r : Record}
    (hch : select_children s r.ordinal ≠ []) :
    build_content s r = .ok (build_node r (select_children s r.ordinal),
      select_children s r.ordinal) := by
  unfold build_content
  have h : (select_children s r.ordinal).isEmpty = false := by
    simpa using hch
  simp [h]

/-! ## Claim C4 -/

/-- C4 (amended): for every record, when `children_of` is empty and the
sibling query succeeds, rendering produces a leaf document that contains
`## Navigation` and contains `## Table of contents` only if one of the
record's own constituents (metadata block, `"# "`-prefixed title, content
body, navigation bullets) contains it; when the record has at least one
child, rendering produces a node document that contains
`## Table of contents` and contains `## Navigation` only if one of the
constituents (metadata, title, content, table-of-contents bullets)
contains it.  (A leaf whose ordinal does not parse renders no document at
all but fails with `InvalidOrdinal` — see the counterexample.) -/
theorem c4_leaf_node_dichotomy (s : Store) (r : Record) :
    (∀ prev next, select_children s r.ordinal = [] →
      select_siblings s r.ordinal = .ok (prev, next) →
      build_content s r = .ok (build_leaf r (prev, next), []) ∧
      chars "## Navigation" <:+: build_leaf r (prev, next) ∧
      (¬ chars "## Table of contents" <:+: build_metadata r →
       ¬ chars "## Table of contents" <:+: chars "# " ++ r.title.toList →
       ¬ chars "## Table of contents" <:+: r.content.toList →
       ¬ chars "## Table of contents" <:+: leaf_nav prev next →
       ¬ chars "## Table of contents" <:+: build_leaf r (prev, next))) ∧
    (select_children s r.ordinal ≠ [] →
      build_content s r = .ok (build_node r (select_children s r.ordinal),
        select_children s r.ordinal) ∧
      chars "## Table of contents" <:+: build_node r (select_children s r.ordinal) ∧
      (¬ chars "## Navigation" <:+: build_metadata r →
       ¬ chars "## Navigation" <:+: chars "# " ++ r.title.toList →
       ¬ chars "## Navigation" <:+: r.content.toList →
       ¬ chars "## Navigation" <:+: toc_items (select_children s r.ordinal) →
       ¬ chars "## Navigation" <:+: build_node r (select_children s r.ordinal))) := by
  constructor
  · intro prev next hch hsib
    exact ⟨build_content_leaf hch hsib, nav_in_leaf r prev next,
      fun h1 h2 h3 h4 => no_toc_in_leaf r prev next h1 h2 h3 h4⟩
  · intro hch
    exact ⟨build_content_node hch, toc_in_node r _,
      fun h1 h2 h3 h4 => no_nav_in_node r _ h1 h2 h3 h4⟩

/-- C4 (witness): concrete leaf (record `"1.1"` over the empty store) and
concrete node (record `"1"` with one child `"1.1"`) runs of the amended
statement, with every containment hypothesis discharged by evaluation. -/
theorem c4_witness :
    (build_content ([] : Store) ⟨"1.1", some "1", 1, "a", "A", none, "hello"⟩ =
      .ok (build_leaf ⟨"1.1", some "1", 1, "a", "A", none, "hello"⟩ (none, none), []) ∧
     chars "## Navigation" <:+:
      build_leaf ⟨"1.1", some "1", 1, "a", "A", none, "hello"⟩ (none, none) ∧
     ¬ chars "## Table of contents" <:+:
      build_leaf ⟨"1.1", some "1", 1, "a", "A", none, "hello"⟩ (none, none)) ∧
    (build_content [⟨"1.1", some "1", 1, "a", "A", none, "x"⟩]
        ⟨"1", none, 1, "s", "S", none, "c"⟩ =
      .ok (build_node ⟨"1", none, 1, "s", "S", none, "c"⟩
        (select_children [⟨"1.1", some "1", 1, "a", "A", none, "x"⟩] "1"),
        select_children [⟨"1.1", some "1", 1, "a", "A", none, "x"⟩] "1") ∧
     chars "## Table of contents" <:+:
      build_node ⟨"1", none, 1, "s", "S", none, "c"⟩
        (select_children [⟨"1.1", some "1", 1, "a", "A", none, "x"⟩] "1") ∧
     ¬ chars "## Navigation" <:+:
      build_node ⟨"1", none, 1, "s", "S", none, "c"⟩
        (select_children [⟨"1.1", some "1", 1, "a", "A", none, "x"⟩] "1")) := by
  constructor
  · have L := (c4_leaf_node_dichotomy []
      ⟨"1.1", some "1", 1, "a", "A", none, "hello"⟩).1 none none
      (by decide) (by decide)
    exact ⟨L.1, L.2.1, L.2.2 (by decide) (by decide) (by decide) (by decide)⟩
  · have N := (c4_leaf_node_dichotomy [⟨"1.1", some "1", 1, "a", "A", none, "x"⟩]
      ⟨"1", none, 1, "s", "S", none, "c"⟩).2 (by decide)
    exact ⟨N.1, N.2.1, N.2.2 (by decide) (by decide) (by decide) (by decide)⟩

/-- C4 (counterexample): a childless record whose content body is the very
string `## Table of contents` renders to a leaf document that does contain
`## Table of contents` (refuting the claim's "never"), and a childless
record with the unparseable ordinal `"x"` produces no document at all —
rendering fails with `InvalidOrdinal`. -/
theorem c4_counterexample :
    build_content ([] : Store)
        ⟨"1.1", some "1", 1, "a", "A", none, "## Table of contents"⟩ =
      .ok (build_leaf ⟨"1.1", some "1", 1, "a", "A", none, "## Table of contents"⟩
        (none, none), []) ∧
    chars "## Table of contents" <:+:
      build_leaf ⟨"1.1", some "1", 1, "a", "A", none, "## Table of contents"⟩
        (none, none) ∧
    build_content ([] : Store) ⟨"x", none, 0, "x", "X", none, ""⟩ =
      .error .InvalidOrdinal := by decide

/-! ## Claim C7 -/

/-- C7 (confirmed): for a leaf record (no children) whose previous and next
siblings are both absent, the rendered document still ends with the
`## Navigation` section header followed by an empty body — the document is
exactly a prefix followed by `"## Navigation\n\n"` and nothing after. -/
theorem c7_empty_nav_renders (s : Store) (r : Record)
    (hch : select_children s r.ordinal = [])
    (hsib : select_siblings s r.ordinal = .ok (none, none)) :
    ∃ pre, build_content s r = .ok (pre ++ chars "## Navigation\n\n", []) ∧
      build_leaf r (none, none) = pre ++ chars "## Navigation\n\n" := by
  have hnav : leaf_nav ((none : Option Record), (none : Option Record)).1
      ((none : Option Record), (none : Option Record)).2 = [] := rfl
  have hdoc : build_leaf r (none, none) =
      build_metadata r ++ chars "# " ++ r.title.toList ++ chars "\n\n" ++
        r.content.toList ++ chars "\n\n" ++ chars "## Navigation\n\n" := by
    rw [build_leaf, hnav, List.append_nil]
  exact ⟨_, by rw [build_content_leaf hch hsib, hdoc], hdoc⟩

/-- C7 (witness): concrete run at record `"1.1"` over the empty store. -/
theorem c7_witness :
    ∃ pre, build_content ([] : Store)
        ⟨"1.1", some "1", 1, "a", "A", none, "hello"⟩ =
      .ok (pre ++ chars "## Navigation\n\n", []) ∧
      build_leaf ⟨"1.1", some "1", 1, "a", "A", none, "hello"⟩ (none, none) =
        pre ++ chars "## Navigation\n\n" :=
  c7_empty_nav_renders [] ⟨"1.1", some "1", 1, "a", "A", none, "hello"⟩
    (by decide) (by decide)

/-! ## Lemmas about the output writer -/

theorem build_content_children {s : Store} {r : Record} {data : List Char}
    {children : List Record}
    (h : build_content s r = .ok (data, children)) :
    children = select_children s r.ordinal := by
  by_cases hch : select_children s r.ordinal = []
  · rcases hsib : select_siblings s r.ordinal with e | sib
    · rw [show build_content s r = .error e by
        unfold build_content; rw [hch]; simp [hsib]] at h
      cases h
    · rcases sib with ⟨prev, next⟩
      rw [build_content_leaf hch hsib] at h
      have h2 := (Except.ok.injEq _ _ |>.mp h)
      rw [hch]
      exact ((Prod.mk.injEq _ _ _ _).mp h2).2.symm
  · rw [build_content_node hch] at h
    have := (Except.ok.injEq _ _ |>.mp h)
    exact (Prod.mk.injEq _ _ _ _ |>.mp this).2.symm

theorem write_node_dir (fuel : Nat) (s : Store) (dir : String) :
    (∀ r : Record, ∀ w ∈ (write_node fuel s r dir).1, w.dir = dir) ∧
    (∀ rs : List Record,
      ∀ w ∈ (write_children (fun c => write_node fuel s c dir) rs).1, w.dir = dir) := by
  induction fuel with
  | zero =>
    have hnode : ∀ r : Record, ∀ w ∈ (write_node 0 s r dir).1, w.dir = dir := by
      intro r w hw
      simp [write_node] at hw
    refine ⟨hnode, ?_⟩
    intro rs
    induction rs with
    | nil => intro w hw; simp [write_children] at hw
    | cons c cs ihl =>
      intro w hw
      simp only [write_children] at hw
      rcases hfc : (write_node 0 s c dir).2 with _ | e <;> rw [hfc] at hw
      · simp only at hw
        rcases List.mem_append.mp hw with h | h
        · exact hnode c w h
        · exact ihl w h
      · simp only at hw
        exact hnode c w hw
  | succ fuel ih =>
    have hnode : ∀ r : Record, ∀ w ∈ (write_node (fuel + 1) s r dir).1, w.dir = dir := by
      intro r w hw
      rcases hbc : build_content s r with e | ⟨data, children⟩
      · simp [write_node, hbc] at hw
      · simp only [write_node, hbc] at hw
        rcases List.mem_cons.mp hw with heq | hw
        · rw [heq]
        · exact ih.2 children w hw
    refine ⟨hnode, ?_⟩
    intro rs
    induction rs with
    | nil => intro w hw; simp [write_children] at hw
    | cons c cs ihl =>
      intro w hw
      simp only [write_children] at hw
      rcases hfc : (write_node (fuel + 1) s c dir).2 with _ | e <;> rw [hfc] at hw
      · simp only at hw
        rcases List.mem_append.mp hw with h | h
        · exact hnode c w h
        · exact ihl w h
      · simp only at hw
        exact hnode c w hw

theorem write_children_mem {go : Record → List FileWrite × Option StoreError}
    {rs : List Record} {c : Record} (hmem : c ∈ rs)
    (hok : (write_children go rs).2 = none) :
    (go c).2 = none ∧ ∀ w ∈ (go c).1, w ∈ (write_children go rs).1 := by
  induction rs with
  | nil => simp at hmem
  | cons d ds ih =>
    rcases hfc : (go d).2 with _ | e
    · have heq : write_children go (d :: ds) =
        ((go d).1 ++ (write_children go ds).1, (write_children go ds).2) := by
        simp [write_children, hfc]
      rcases List.mem_cons.mp hmem with heqc | hmem'
      · subst heqc
        exact ⟨hfc, fun w hw => by
          rw [heq]; exact List.mem_append.mpr (Or.inl hw)⟩
      · have hok' : (write_children go ds).2 = none := by
          rw [heq] at hok; exact hok
        obtain ⟨h1, h2⟩ := ih hmem' hok'
        exact ⟨h1, fun w hw => by
          rw [heq]; exact List.mem_append.mpr (Or.inr (h2 w hw))⟩
    · exfalso
      have : (write_children go (d :: ds)).2 = some e := by
        simp [write_children, hfc]
      rw [hok] at this
      cases this

theorem write_node_succ_ok {fuel : Nat} {s : Store} {r : Record} {dir : String}
    (hok : (write_node (fuel + 1) s r dir).2 = none) :
    ∃ data children, build_content s r = .ok (data, children) ∧
      write_node (fuel + 1) s r dir =
        (⟨dir, r.slug ++ ".md", data⟩ ::
          (write_children (fun c => write_node fuel s c dir) children).1,
         (write_children (fun c => write_node fuel s c dir) children).2) ∧
      (write_children (fun c => write_node fuel s c dir) children).2 = none := by
  rcases hbc : build_content s r with e | ⟨data, children⟩
  · exfalso
    simp [write_node, hbc] at hok
  · refine ⟨data, children, rfl, by simp [write_node, hbc], ?_⟩
    have h := hok
    simp only [write_node, hbc] at h
    exact h

theorem write_node_descend {s : Store} {dir : String} {k : Nat} {r c : Record}
    (hdesc : Descend s r c k) :
    ∀ {fuel : Nat}, k < fuel → (write_node fuel s r dir).2 = none →
      (write_node (fuel - k) s c dir).2 = none ∧
      ∀ w ∈ (write_node (fuel - k) s c dir).1, w ∈ (write_node fuel s r dir).1 := by
  induction hdesc with
  | child hc =>
    intro fuel hk hok
    rcases fuel with _ | f
    · omega
    obtain ⟨data, children, hbc, heq, hcok⟩ := write_node_succ_ok hok
    have hch : children = select_children s _ := build_content_children hbc
    have hcc := hc
    rw [← hch] at hcc
    obtain ⟨hcnone, hsub⟩ := write_children_mem hcc hcok
    have hfk : f + 1 - 1 = f := by omega
    rw [hfk]
    exact ⟨hcnone, fun w hw => by
      rw [heq]
      exact List.mem_cons_of_mem _ (hsub w hw)⟩
  | step hd hc ih =>
    rename_i m' c' k'
    intro fuel hk hok
    obtain ⟨hmok, hmsub⟩ := ih (by omega) hok
    rcases hfk : fuel - k' with _ | f
    · omega
    rw [hfk] at hmok hmsub
    obtain ⟨data, children, hbc, heq, hcok⟩ := write_node_succ_ok hmok
    have hch : children = select_children s _ := build_content_children hbc
    have hcc := hc
    rw [← hch] at hcc
    obtain ⟨hcnone, hsub⟩ := write_children_mem hcc hcok
    have hfk2 : fuel - (k' + 1) = f := by omega
    rw [hfk2]
    exact ⟨hcnone, fun w hw => hmsub _ (by
      rw [heq]
      exact List.mem_cons_of_mem _ (hsub w hw))⟩

/-! ## Claim C8 -/

/-- C8 (confirmed): `write_node` writes the record's rendered document to
`<dir>/<slug>.md` (the head of its write list) and recursively writes
every descendant — at any depth the fuel covers — into that same
directory; every write it (or `write_tree`) emits lands in `dir`, so all
descendants of a section become sibling files distinguished only by their
slug. -/
theorem c8_write_node_flattens (s : Store) (r : Record) (dir : String) (fuel : Nat) :
    (∀ w ∈ (write_node fuel s r dir).1, w.dir = dir) ∧
    (∀ w ∈ (write_tree fuel s r dir).1, w.dir = dir) ∧
    (∀ data children, build_content s r = .ok (data, children) → 0 < fuel →
      ∃ rest : List FileWrite × Option StoreError, write_node fuel s r dir =
        (⟨dir, r.slug ++ ".md", data⟩ :: rest.1, rest.2)) ∧
    (∀ k c, Descend s r c k → k < fuel → (write_node fuel s r dir).2 = none →
      ∃ data children, build_content s c = .ok (data, children) ∧
        (⟨dir, c.slug ++ ".md", data⟩ : FileWrite) ∈ (write_node fuel s r dir).1) := by
  refine ⟨(write_node_dir fuel s dir).1 r, ?_, ?_, ?_⟩
  · intro w hw
    rcases hbc : build_content s r with e | ⟨data, children⟩
    · simp [write_tree, hbc] at hw
    · simp only [write_tree, hbc] at hw
      rcases List.mem_cons.mp hw with heq | hw
      · rw [heq]
      · exact (write_node_dir fuel s dir).2 children w hw
  · intro data children hbc hfuel
    rcases fuel with _ | f
    · omega
    exact ⟨(write_children (fun c => write_node f s c dir) children),
      by simp [write_node, hbc]⟩
  · intro k c hdesc hk hok
    obtain ⟨hcok, hsub⟩ := write_node_descend hdesc hk hok
    rcases hfk : fuel - k with _ | f
    · omega
    rw [hfk] at hcok hsub
    obtain ⟨data, children, hbc, heq, -⟩ := write_node_succ_ok hcok
    refine ⟨data, children, hbc, hsub _ ?_⟩
    rw [heq]
    exact List.mem_cons_self _ _

/-- C8 (witness): over a store with a section `"1"`, child `"1.1"` and
grandchild `"1.1.1"`, every file of `write_node` at fuel 3 lands in
`"out"`, and the depth-2 descendant `"1.1.1"` is written as a sibling file
in that same directory. -/
theorem c8_witness :
    (∀ w ∈ (write_node 3
      [⟨"1.1", some "1", 1, "a", "A", none, "x"⟩,
       ⟨"1.1.1", some "1.1", 1, "b", "B", none, "y"⟩]
      ⟨"1", none, 1, "s", "S", none, "c"⟩ "out").1, w.dir = "out") ∧
    (∃ data children, build_content
        [⟨"1.1", some "1", 1, "a", "A", none, "x"⟩,
         ⟨"1.1.1", some "1.1", 1, "b", "B", none, "y"⟩]
        ⟨"1.1.1", some "1.1", 1, "b", "B", none, "y"⟩ = .ok (data, children) ∧
      (⟨"out", Record.slug ⟨"1.1.1", some "1.1", 1, "b", "B", none, "y"⟩ ++ ".md",
        data⟩ : FileWrite) ∈
        (write_node 3
          [⟨"1.1", some "1", 1, "a", "A", none, "x"⟩,
           ⟨"1.1.1", some "1.1", 1, "b", "B", none, "y"⟩]
          ⟨"1", none, 1, "s", "S", none, "c"⟩ "out").1) := by
  have T := c8_write_node_flattens
    [⟨"1.1", some "1", 1, "a", "A", none, "x"⟩,
     ⟨"1.1.1", some "1.1", 1, "b", "B", none, "y"⟩]
    ⟨"1", none, 1, "s", "S", none, "c"⟩ "out" 3
  refine ⟨T.1, ?_⟩
  have h1 : Descend
      [⟨"1.1", some "1", 1, "a", "A", none, "x"⟩,
       ⟨"1.1.1", some "1.1", 1, "b", "B", none, "y"⟩]
      ⟨"1", none, 1, "s", "S", none, "c"⟩
      ⟨"1.1", some "1", 1, "a", "A", none, "x"⟩ 1 :=
    Descend.child (by decide)
  have hd : Descend
      [⟨"1.1", some "1", 1, "a", "A", none, "x"⟩,
       ⟨"1.1.1", some "1.1", 1, "b", "B", none, "y"⟩]
      ⟨"1", none, 1, "s", "S", none, "c"⟩
      ⟨"1.1.1", some "1.1", 1, "b", "B", none, "y"⟩ 2 :=
    Descend.step h1 (by decide)
  exact T.2.2.2 2 ⟨"1.1.1", some "1.1", 1, "b", "B", none, "y"⟩ hd
    (by omega) (by decide)
